import Mathlib

/-!
# owncast-ntfy: webhook relay from Owncast events to ntfy notifications

A shallow embedding of `src/types.go` and `src/main.go`, followed by the
theorems that settle the claims of the specification.

Conventions of the embedding

* Go `string` is Lean `String` (the inputs are taken to be valid UTF-8);
  a Go slice of strings is `List String`, the nil slice being `[]`.
* A Go function returning `(T, error)` returns the pair `T × Option String`,
  the `Option` holding the error text (`none` is Go's `nil` error).
* A Go run-time panic is the constructor `GoResult.panicked`.
* The process-wide variables `topic`, `serverUrl` and `bold` that `main` sets
  before `server()` runs are passed explicitly.
* `html2text.HTML2Text`, `json.Unmarshal` and the outbound HTTP round trip are
  third-party or standard-library code outside the repository; they are
  parameters of the functions that call them.
-/

namespace OwncastNtfy

/-! ## Data model (`src/types.go`) -/

/-- Go struct `OwncastUser`. -/
structure OwncastUser where
  DisplayName : String
  PreviousNames : List String
  deriving DecidableEq, Repr

/-- Go struct `OwncastEvent`. -/
structure OwncastEvent where
  Body : String
  User : OwncastUser
  NewName : String
  StreamTitle : String
  Summary : String
  deriving DecidableEq, Repr

/-- Go struct `OwncastPayload`; the field `Type` is spelled `Type_`, `Type` being
reserved in Lean. -/
structure OwncastPayload where
  Type_ : String
  EventData : OwncastEvent
  deriving DecidableEq, Repr

/-- Go struct `NtfyNotification`. -/
structure NtfyNotification where
  Message : String
  Topic : String
  Title : String
  Tags : List String
  deriving DecidableEq, Repr

/-- The zero value `NtfyNotification{}`: empty strings and a nil tag slice. -/
def NtfyNotification.zero : NtfyNotification :=
  { Message := "", Topic := "", Title := "", Tags := [] }

/-- Result of running a Go function: it returns a value or it panics. -/
inductive GoResult (α : Type) where
  | returned (a : α)
  | panicked (msg : String)
  deriving DecidableEq, Repr

/-- Go slice indexing `xs[i]` with its bounds check: `none` is the run-time
panic "index out of range". -/
def sliceIndex (xs : List String) (i : Int) : Option String :=
  if i < 0 then none else xs[i.toNat]?

/-! ## The translator (`prepareNotification`, main.go 137-184) -/

/-- The value of the global `bold` once `main` has run lines 65-67:
`""` initially (line 29), `"**"` when the `markdown` flag is set. -/
def boldOf (markdown : Bool) : String :=
  if markdown then "**" else ""

/-- Go `prepareNotification`. `html2text` stands for `html2text.HTML2Text`;
`topic` and `bold` are the globals read by the function. -/
def prepareNotification (html2text : String → String) (topic bold : String)
    (owncastPayload : OwncastPayload) : GoResult (NtfyNotification × Option String) :=
  if owncastPayload.Type_ = "CHAT" then
    .returned ({ Message := html2text owncastPayload.EventData.Body,
                 Title := owncastPayload.EventData.User.DisplayName ++ " said",
                 Topic := topic,
                 Tags := ["speech_balloon", "message"] }, none)
  else if owncastPayload.Type_ = "NAME_CHANGE" then
    match sliceIndex owncastPayload.EventData.User.PreviousNames
        ((owncastPayload.EventData.User.PreviousNames.length : Int) - 1) with
    | none => .panicked "runtime error: index out of range [-1]"
    | some previous =>
      .returned ({ Message := bold ++ previous ++ bold ++ " changed its name to " ++ bold ++
                     owncastPayload.EventData.NewName ++ bold,
                   Title := "",
                   Topic := topic,
                   Tags := ["label", "name_change"] }, none)
  else if owncastPayload.Type_ = "USER_JOINED" then
    .returned ({ Message := bold ++ owncastPayload.EventData.User.DisplayName ++ bold ++
                   " joined stream",
                 Title := "",
                 Topic := topic,
                 Tags := ["sunglasses", "user_join"] }, none)
  else if owncastPayload.Type_ = "USER_PARTED" then
    .returned ({ Message := bold ++ owncastPayload.EventData.User.DisplayName ++ bold ++
                   " left stream",
                 Title := "",
                 Topic := topic,
                 Tags := ["dash", "user_leave"] }, none)
  else if owncastPayload.Type_ = "STREAM_STARTED" then
    .returned ({ Message := bold ++ owncastPayload.EventData.StreamTitle ++ bold ++
                   " started streaming",
                 Title := "",
                 Topic := topic,
                 Tags := ["green_circle", "stream_start"] }, none)
  else if owncastPayload.Type_ = "STREAM_STOPPED" then
    .returned ({ Message := bold ++ owncastPayload.EventData.StreamTitle ++ bold ++
                   " stopped streaming",
                 Title := "",
                 Topic := topic,
                 Tags := ["x", "stream_stop"] }, none)
  else if owncastPayload.Type_ = "STREAM_TITLE_UPDATED" then
    .returned ({ Message := "Stream title updated to " ++ bold ++
                   owncastPayload.EventData.StreamTitle ++ bold,
                 Title := "",
                 Topic := topic,
                 Tags := ["new", "stream_title_update"] }, none)
  else
    .returned (NtfyNotification.zero, some "unknown owncast message")

/-- The seven type strings `prepareNotification` compares against. -/
def recognizedTypes : List String :=
  ["CHAT", "NAME_CHANGE", "USER_JOINED", "USER_PARTED", "STREAM_STARTED", "STREAM_STOPPED",
   "STREAM_TITLE_UPDATED"]

/-- Modelled from the spec: the conversion `html2text.HTML2Text` of the
third-party package `github.com/k3a/html2text`, whose source is not part of
the repository. The specification says of it only that the event body is
"converted from rich-text/HTML to plain text" with "rich-text markup
stripped"; this model drops every run from a `<` to the next `>` and keeps
all other characters. `inTag` tells whether the scan is inside such a run. -/
def stripMarkup : Bool → List Char → List Char
  | _, [] => []
  | false, c :: cs => if c = '<' then stripMarkup true cs else c :: stripMarkup false cs
  | true, c :: cs => if c = '>' then stripMarkup false cs else stripMarkup true cs

/-- Modelled from the spec: `html2text.HTML2Text` as markup stripping, see
`stripMarkup`. -/
def HTML2Text (html : String) : String :=
  String.mk (stripMarkup false html.data)

/-- A payload with all fields empty except the ones given. -/
def payloadOf (type displayName : String) (previousNames : List String)
    (body newName streamTitle : String) : OwncastPayload :=
  { Type_ := type,
    EventData := { Body := body,
                   User := { DisplayName := displayName, PreviousNames := previousNames },
                   NewName := newName, StreamTitle := streamTitle, Summary := "" } }

/-! ## The inbound listener (`handleRequest`, main.go 101-135) -/

/-- The state of an `http.ResponseWriter` as the handler can affect it: whether
the status line has been written, with which code, and the body bytes written
so far. Response header fields are not modelled. -/
structure ResponseWriter where
  wroteHeader : Bool
  status : Nat
  body : String
  deriving DecidableEq, Repr

/-- The response writer handed to a handler: nothing written yet. -/
def ResponseWriter.fresh : ResponseWriter :=
  { wroteHeader := false, status := 0, body := "" }

/-- Method `WriteHeader` of net/http's response writer: the first call fixes the
status code, a later call is ignored (the server logs it as superfluous). -/
def ResponseWriter.WriteHeader (w : ResponseWriter) (statusCode : Nat) : ResponseWriter :=
  if w.wroteHeader then w else { w with wroteHeader := true, status := statusCode }

/-- Method `Write` of net/http's response writer: when no status has been
written it first does `WriteHeader(http.StatusOK)`, then appends the data. -/
def ResponseWriter.Write (w : ResponseWriter) (data : String) : ResponseWriter :=
  let w1 := if w.wroteHeader then w else w.WriteHeader 200
  { w1 with body := w1.body ++ data }

/-- Function `http.Error`: `WriteHeader(code)` followed by `Fprintln(w, error)`. -/
def httpError (w : ResponseWriter) (error : String) (code : Nat) : ResponseWriter :=
  (w.WriteHeader code).Write (error ++ "\n")

/-- An inbound request as the handler reads it: the method, and the outcome of
`io.ReadAll(request.Body)` (`none` when reading fails). -/
structure Request where
  Method : String
  Body : Option String
  deriving DecidableEq, Repr

/-- Go `sendNotification`. `post` stands for lines 188-215: marshalling the
payload, building the POST request to `serverUrl` with its headers and
performing it; it yields the gateway's status code, or the error of one of
those steps. Lines 217-220 turn a status other than 200 into an error. -/
def sendNotification (post : NtfyNotification → Except String Nat)
    (payload : NtfyNotification) : Option String :=
  match post payload with
  | .error err => some err
  | .ok statusCode =>
    if statusCode ≠ 200 then some ("ntfy returned status code " ++ toString statusCode)
    else none

/-- A call made by `handleRequest` to one of the two functions it delegates to. -/
inductive Call where
  | prepareNotification (payload : OwncastPayload)
  | sendNotification (payload : NtfyNotification)
  deriving DecidableEq, Repr

/-- What one run of `handleRequest` leaves behind: the response, the calls it
made in order, and the panic that ended it, if any. -/
structure Handled where
  response : ResponseWriter
  calls : List Call
  panic : Option String
  deriving DecidableEq, Repr

/-- Go `handleRequest`. `unmarshal` stands for `json.Unmarshal` into an
`OwncastPayload` (`none` when it returns an error). -/
def handleRequest (unmarshal : String → Option OwncastPayload) (html2text : String → String)
    (topic bold : String) (post : NtfyNotification → Except String Nat)
    (request : Request) : Handled :=
  let response := ResponseWriter.fresh
  if request.Method = "POST" then
    match request.Body with
    | none =>
      { response := httpError response "Error reading request body" 400, calls := [],
        panic := none }
    | some body =>
      match unmarshal body with
      | none =>
        { response := httpError response "Error parsing JSON payload" 400, calls := [],
          panic := none }
      | some payload =>
        match prepareNotification html2text topic bold payload with
        | .panicked msg =>
          { response := response, calls := [.prepareNotification payload], panic := some msg }
        | .returned (notificationPayload, err) =>
          let response1 :=
            if err ≠ none then httpError response "Unknown Owncast Message" 501 else response
          match sendNotification post notificationPayload with
          | some _ =>
            { response := httpError response1 "Error sending notification" 500,
              calls := [.prepareNotification payload, .sendNotification notificationPayload],
              panic := none }
          | none =>
            { response := (response1.WriteHeader 200).Write "Payload received successfully\n",
              calls := [.prepareNotification payload, .sendNotification notificationPayload],
              panic := none }
  else
    { response := httpError response "Invalid request method" 405, calls := [], panic := none }

/-! ## Start-up (`urlRe`, `validateFlags`, `main`, main.go 32-87)

The pattern of `urlRe` is
`(https?://.*?)/([-a-zA-Z0-9()@:%_\+.~#?&=]+)$`.
Go's `regexp` returns the leftmost match and, among the matches starting
there, the one a backtracking matcher finds first. The functions below are
that backtracking matcher for this pattern, one function per piece of the
pattern, over the characters of the text. -/

/-- The character class `[-a-zA-Z0-9()@:%_\+.~#?&=]`. -/
def topicChar (c : Char) : Bool :=
  c = '-' || ('a' ≤ c && c ≤ 'z') || ('A' ≤ c && c ≤ 'Z') || ('0' ≤ c && c ≤ '9') ||
  c = '(' || c = ')' || c = '@' || c = ':' || c = '%' || c = '_' || c = '+' || c = '.' ||
  c = '~' || c = '#' || c = '?' || c = '&' || c = '='

/-- A literal piece of the pattern: the rest of the text after it, if the text
starts with it. -/
def literal : List Char → List Char → Option (List Char)
  | [], s => some s
  | _ :: _, [] => none
  | c :: cs, d :: s => if c = d then literal cs s else none

/-- The piece `([-a-zA-Z0-9()@:%_\+.~#?&=]+)$`: the greedy run of class
characters must be non-empty and must reach the end of the text (giving
characters back cannot help, `$` holds only at the end). Yields group 2. -/
def topicToEnd (s : List Char) : Option (List Char) :=
  if s.takeWhile topicChar ≠ [] ∧ s.dropWhile topicChar = [] then some (s.takeWhile topicChar)
  else none

/-- The piece `/([-a-zA-Z0-9()@:%_\+.~#?&=]+)$`. -/
def slashTopic (s : List Char) : Option (List Char) :=
  match literal ['/'] s with
  | none => none
  | some rest => topicToEnd rest

/-- The piece `.*?/(...)$`: the lazy star first tries the rest of the pattern
with no further character and only on failure takes one more character, which
`.` accepts unless it is a line feed. Yields the text taken by `.*?` and
group 2. -/
def lazyAnyThen : List Char → Option (List Char × List Char)
  | [] => (slashTopic []).map fun t => ([], t)
  | c :: rest =>
    match slashTopic (c :: rest) with
    | some t => some ([], t)
    | none =>
      if c = '\n' then none
      else (lazyAnyThen rest).map fun m => (c :: m.1, m.2)

/-- The piece `://.*?/(...)$` after a scheme already matched; yields groups 1
and 2. -/
def afterScheme (scheme s : List Char) : Option (List Char × List Char) :=
  match literal [':', '/', '/'] s with
  | none => none
  | some rest => (lazyAnyThen rest).map fun m => (scheme ++ [':', '/', '/'] ++ m.1, m.2)

/-- The whole pattern tried at the start of `s`: `http`, then `s?` (greedy:
with the `s` first, without it if that fails), then the rest. -/
def matchHere (s : List Char) : Option (List Char × List Char) :=
  match literal ['h', 't', 't', 'p'] s with
  | none => none
  | some r =>
    let withS :=
      match literal ['s'] r with
      | none => none
      | some r1 => afterScheme ['h', 't', 't', 'p', 's'] r1
    match withS with
    | some m => some m
    | none => afterScheme ['h', 't', 't', 'p'] r

/-- Unanchored search: the pattern is tried at each position from the left,
the first position that matches wins. Yields groups 1 and 2 of the match. -/
def urlReExec : List Char → Option (List Char × List Char)
  | [] => matchHere []
  | c :: rest =>
    match matchHere (c :: rest) with
    | some m => some m
    | none => urlReExec rest

/-- Method `urlRe.MatchString`: whether the search finds a match. -/
def MatchString (s : String) : Bool :=
  (urlReExec s.data).isSome

/-- Method `urlRe.FindStringSubmatch`: nil when there is no match, otherwise the
matched text followed by the two groups. -/
def FindStringSubmatch (s : String) : List String :=
  match urlReExec s.data with
  | none => []
  | some (g1, g2) => [String.mk (g1 ++ '/' :: g2), String.mk g1, String.mk g2]

/-- Function `strings.HasPrefix`. -/
def HasPrefix (s pre : String) : Bool :=
  pre.data.isPrefixOf s.data

/-- Go `validateFlags`, reading the flag `ntfy-url`. -/
def validateFlags (ntfyUrl : String) : Option String :=
  if ntfyUrl = "" then some "ntfy-url is required"
  else if !HasPrefix ntfyUrl "http" then some "ntfy-url must start with http or https"
  else if !MatchString ntfyUrl then
    some ("ntfy-url must follow the format https://ntfy.sh/<topic>. " ++
      "(you may use a custom ntfy server)")
  else none

/-- The command-line flags (main.go 20-26). -/
structure Flags where
  ntfyUrl : String
  ntfyBasicAuth : String
  allowInsecure : Bool
  port : Int
  markdown : Bool
  deriving DecidableEq, Repr

/-- The globals `main` has set when it calls `server()`. -/
structure Globals where
  serverUrl : String
  topic : String
  bold : String
  deriving DecidableEq, Repr

/-- How `main` proceeds: it prints a line and exits with a code before
`server()` is called, or it calls `server()` with the globals set. -/
inductive Startup where
  | exited (code : Nat) (output : String)
  | serving (globals : Globals)
  deriving DecidableEq, Repr

/-- Go `main` up to the call of `server()`. The test `len(matches) != 3`
followed by `matches[1]` and `matches[2]` is the match on a three-element
list. -/
def main (flags : Flags) : Startup :=
  match validateFlags flags.ntfyUrl with
  | some err => .exited 1 err
  | none =>
    match FindStringSubmatch flags.ntfyUrl with
    | [_, g1, g2] => .serving { serverUrl := g1, topic := g2, bold := boldOf flags.markdown }
    | _ => .exited 1 "Error parsing ntfy-url"

/-- Flags with the given URL and markdown setting, the rest at their defaults. -/
def flagsOf (ntfyUrl : String) (markdown : Bool) : Flags :=
  { ntfyUrl := ntfyUrl, ntfyBasicAuth := "", allowInsecure := false, port := 8080,
    markdown := markdown }

/-! ## Shapes of URL the specification speaks of -/

/-- A trailing topic segment: a non-empty run of characters of the class. -/
def ValidTopic (t : List Char) : Prop :=
  t ≠ [] ∧ ∀ c ∈ t, topicChar c = true

/-- The text consists of `http://` or `https://`, any text, a `/`, and then a
topic segment up to its end. -/
def ConsistsOfUrlAndTopic (s : List Char) : Prop :=
  ∃ x t, (s = ['h', 't', 't', 'p', ':', '/', '/'] ++ x ++ '/' :: t ∨
          s = ['h', 't', 't', 'p', 's', ':', '/', '/'] ++ x ++ '/' :: t) ∧ ValidTopic t

/-- The text ends with a part of the shape `ConsistsOfUrlAndTopic`. -/
def EndsWithUrlAndTopic (s : List Char) : Prop :=
  ∃ pre rest, s = pre ++ rest ∧ ConsistsOfUrlAndTopic rest

/-- The text, from its first character to its end, is a match of the pattern:
`http://` or `https://`, text without line feed, a `/`, and a topic segment. -/
def IsUrlMatch (s : List Char) : Prop :=
  ∃ x t, (s = ['h', 't', 't', 'p', ':', '/', '/'] ++ x ++ '/' :: t ∨
          s = ['h', 't', 't', 'p', 's', ':', '/', '/'] ++ x ++ '/' :: t) ∧
    '\n' ∉ x ∧ ValidTopic t

/-! ## Lemmas on the translator -/

theorem sliceIndex_last (xs : List String) (h : xs ≠ []) :
    sliceIndex xs ((xs.length : Int) - 1) = some (xs.getLast h) := by
  have hpos : 0 < xs.length := List.length_pos.mpr h
  have hnn : ¬ ((xs.length : Int) - 1 < 0) := by omega
  have hnat : ((xs.length : Int) - 1).toNat = xs.length - 1 := by omega
  unfold sliceIndex
  rw [if_neg hnn, hnat, List.getLast_eq_getElem]
  exact List.getElem?_eq_getElem (by omega)

theorem mem_recognizedTypes (t : String) :
    t ∈ recognizedTypes ↔
      t = "CHAT" ∨ t = "NAME_CHANGE" ∨ t = "USER_JOINED" ∨ t = "USER_PARTED" ∨
      t = "STREAM_STARTED" ∨ t = "STREAM_STOPPED" ∨ t = "STREAM_TITLE_UPDATED" := by
  simp [recognizedTypes]

theorem prepareNotification_unrecognized (html2text : String → String) (topic bold : String)
    (p : OwncastPayload) (h : p.Type_ ∉ recognizedTypes) :
    prepareNotification html2text topic bold p =
      .returned (NtfyNotification.zero, some "unknown owncast message") := by
  rw [mem_recognizedTypes] at h
  simp only [not_or] at h
  obtain ⟨h1, h2, h3, h4, h5, h6, h7⟩ := h
  simp [prepareNotification, h1, h2, h3, h4, h5, h6, h7]

theorem prepareNotification_nameChange (html2text : String → String) (topic bold : String)
    (p : OwncastPayload) (h : p.Type_ = "NAME_CHANGE")
    (hne : p.EventData.User.PreviousNames ≠ []) :
    prepareNotification html2text topic bold p =
      .returned ({ Message := bold ++ p.EventData.User.PreviousNames.getLast hne ++ bold ++
                     " changed its name to " ++ bold ++ p.EventData.NewName ++ bold,
                   Title := "", Topic := topic, Tags := ["label", "name_change"] }, none) := by
  have hc : ¬ ("NAME_CHANGE" = "CHAT") := by decide
  simp only [prepareNotification, h, hc, if_false, if_true, sliceIndex_last _ hne]

theorem prepareNotification_recognized (html2text : String → String) (topic bold : String)
    (p : OwncastPayload) (h : p.Type_ ∈ recognizedTypes)
    (hne : p.Type_ = "NAME_CHANGE" → p.EventData.User.PreviousNames ≠ []) :
    ∃ n, prepareNotification html2text topic bold p = .returned (n, none) := by
  rw [mem_recognizedTypes] at h
  rcases h with h | h | h | h | h | h | h
  · simp [prepareNotification, h]
  · exact ⟨_, prepareNotification_nameChange html2text topic bold p h (hne h)⟩
  · simp [prepareNotification, h]
  · simp [prepareNotification, h]
  · simp [prepareNotification, h]
  · simp [prepareNotification, h]
  · simp [prepareNotification, h]

/-! ## Claims on the translator -/

/-- C1: for every payload and either setting of the markdown flag, with `e` the
empty string when the flag is off and `**` when it is on, `prepareNotification`
returns no error and the notification of the table for USER_JOINED,
USER_PARTED, STREAM_STARTED, STREAM_STOPPED, STREAM_TITLE_UPDATED and for
NAME_CHANGE with a non-empty sequence of previous names (whose last element is
used); the title is empty and the topic is the configured topic. -/
theorem prepareNotification_table (html2text : String → String) (topic : String)
    (markdown : Bool) (p : OwncastPayload) :
    (p.Type_ = "USER_JOINED" →
      prepareNotification html2text topic (boldOf markdown) p =
        .returned ({ Message := (if markdown then "**" else "") ++
                       p.EventData.User.DisplayName ++ (if markdown then "**" else "") ++
                       " joined stream",
                     Title := "", Topic := topic, Tags := ["sunglasses", "user_join"] }, none)) ∧
    (p.Type_ = "USER_PARTED" →
      prepareNotification html2text topic (boldOf markdown) p =
        .returned ({ Message := (if markdown then "**" else "") ++
                       p.EventData.User.DisplayName ++ (if markdown then "**" else "") ++
                       " left stream",
                     Title := "", Topic := topic, Tags := ["dash", "user_leave"] }, none)) ∧
    (p.Type_ = "STREAM_STARTED" →
      prepareNotification html2text topic (boldOf markdown) p =
        .returned ({ Message := (if markdown then "**" else "") ++
                       p.EventData.StreamTitle ++ (if markdown then "**" else "") ++
                       " started streaming",
                     Title := "", Topic := topic,
                     Tags := ["green_circle", "stream_start"] }, none)) ∧
    (p.Type_ = "STREAM_STOPPED" →
      prepareNotification html2text topic (boldOf markdown) p =
        .returned ({ Message := (if markdown then "**" else "") ++
                       p.EventData.StreamTitle ++ (if markdown then "**" else "") ++
                       " stopped streaming",
                     Title := "", Topic := topic, Tags := ["x", "stream_stop"] }, none)) ∧
    (p.Type_ = "STREAM_TITLE_UPDATED" →
      prepareNotification html2text topic (boldOf markdown) p =
        .returned ({ Message := "Stream title updated to " ++ (if markdown then "**" else "") ++
                       p.EventData.StreamTitle ++ (if markdown then "**" else ""),
                     Title := "", Topic := topic,
                     Tags := ["new", "stream_title_update"] }, none)) ∧
    (p.Type_ = "NAME_CHANGE" → ∀ hne : p.EventData.User.PreviousNames ≠ [],
      prepareNotification html2text topic (boldOf markdown) p =
        .returned ({ Message := (if markdown then "**" else "") ++
                       p.EventData.User.PreviousNames.getLast hne ++
                       (if markdown then "**" else "") ++ " changed its name to " ++
                       (if markdown then "**" else "") ++ p.EventData.NewName ++
                       (if markdown then "**" else ""),
                     Title := "", Topic := topic, Tags := ["label", "name_change"] }, none)) := by
  refine ⟨?_, ?_, ?_, ?_, ?_, ?_⟩
  · intro h; simp [prepareNotification, h, boldOf]
  · intro h; simp [prepareNotification, h, boldOf]
  · intro h; simp [prepareNotification, h, boldOf]
  · intro h; simp [prepareNotification, h, boldOf]
  · intro h; simp [prepareNotification, h, boldOf]
  · intro h hne
    rw [prepareNotification_nameChange html2text topic _ p h hne]
    rfl

/-- Witness of C1: USER_JOINED with display name Alice gives `Alice joined stream`
with the flag off and `**Alice** joined stream` with it on, and a NAME_CHANGE
from previous names Al, Alice to Bob names Alice. -/
theorem prepareNotification_table_witness :
    prepareNotification HTML2Text "mytopic" (boldOf false)
        (payloadOf "USER_JOINED" "Alice" [] "" "" "") =
      .returned ({ Message := "Alice joined stream", Title := "", Topic := "mytopic",
                   Tags := ["sunglasses", "user_join"] }, none) ∧
    prepareNotification HTML2Text "mytopic" (boldOf true)
        (payloadOf "USER_JOINED" "Alice" [] "" "" "") =
      .returned ({ Message := "**Alice** joined stream", Title := "", Topic := "mytopic",
                   Tags := ["sunglasses", "user_join"] }, none) ∧
    prepareNotification HTML2Text "mytopic" (boldOf true)
        (payloadOf "NAME_CHANGE" "Bob" ["Al", "Alice"] "" "Bob" "") =
      .returned ({ Message := "**Alice** changed its name to **Bob**", Title := "",
                   Topic := "mytopic", Tags := ["label", "name_change"] }, none) :=
  ⟨(prepareNotification_table HTML2Text "mytopic" false
      (payloadOf "USER_JOINED" "Alice" [] "" "" "")).1 rfl,
   (prepareNotification_table HTML2Text "mytopic" true
      (payloadOf "USER_JOINED" "Alice" [] "" "" "")).1 rfl,
   (prepareNotification_table HTML2Text "mytopic" true
      (payloadOf "NAME_CHANGE" "Bob" ["Al", "Alice"] "" "Bob" "")).2.2.2.2.2 rfl (by decide)⟩

/-- C2: `prepareNotification` fails exactly on unrecognized types. When the type
string is none of the seven recognized ones (compared exactly, so `chat` and the
empty string are unrecognized) it returns the error together with the empty
notification; when it is one of the seven, with previous names present for
NAME_CHANGE, it returns a notification and no error. -/
theorem prepareNotification_fails_iff_unrecognized (html2text : String → String)
    (topic bold : String) (p : OwncastPayload) :
    (p.Type_ ∉ recognizedTypes →
      prepareNotification html2text topic bold p =
        .returned ({ Message := "", Topic := "", Title := "", Tags := [] },
                   some "unknown owncast message")) ∧
    (p.Type_ ∈ recognizedTypes →
      (p.Type_ = "NAME_CHANGE" → p.EventData.User.PreviousNames ≠ []) →
      ∃ n, prepareNotification html2text topic bold p = .returned (n, none)) :=
  ⟨prepareNotification_unrecognized html2text topic bold p,
   prepareNotification_recognized html2text topic bold p⟩

/-- Witness of C2: the types `chat` and the empty string are unrecognized and
give the failure with the empty notification; the type `CHAT` gives no failure. -/
theorem prepareNotification_fails_iff_unrecognized_witness :
    "chat" ∉ recognizedTypes ∧ "" ∉ recognizedTypes ∧ "CHAT" ∈ recognizedTypes ∧
    prepareNotification HTML2Text "mytopic" "**" (payloadOf "chat" "Alice" [] "hi" "" "") =
      .returned ({ Message := "", Topic := "", Title := "", Tags := [] },
                 some "unknown owncast message") ∧
    prepareNotification HTML2Text "mytopic" "**" (payloadOf "" "Alice" [] "hi" "" "") =
      .returned ({ Message := "", Topic := "", Title := "", Tags := [] },
                 some "unknown owncast message") ∧
    (∃ n, prepareNotification HTML2Text "mytopic" "**"
        (payloadOf "CHAT" "Alice" [] "hi" "" "") = .returned (n, none)) :=
  ⟨by decide, by decide, by decide,
   (prepareNotification_fails_iff_unrecognized HTML2Text "mytopic" "**"
      (payloadOf "chat" "Alice" [] "hi" "" "")).1 (by decide),
   (prepareNotification_fails_iff_unrecognized HTML2Text "mytopic" "**"
      (payloadOf "" "Alice" [] "hi" "" "")).1 (by decide),
   (prepareNotification_fails_iff_unrecognized HTML2Text "mytopic" "**"
      (payloadOf "CHAT" "Alice" [] "hi" "" "")).2 (by decide) (by decide)⟩

/-- C3 (the code departs from it): on a NAME_CHANGE payload with no previous
names `prepareNotification` indexes the empty slice at -1 and panics; it
returns neither a translation failure nor a notification, and `handleRequest`
ends in that panic after the call, with nothing written to the response and
nothing forwarded. -/
theorem prepareNotification_nameChange_empty_panics :
    prepareNotification HTML2Text "mytopic" ""
        (payloadOf "NAME_CHANGE" "Bob" [] "" "Bob" "") =
      .panicked "runtime error: index out of range [-1]" ∧
    handleRequest (fun _ => some (payloadOf "NAME_CHANGE" "Bob" [] "" "Bob" "")) HTML2Text
        "mytopic" "" (fun _ => .ok 200) { Method := "POST", Body := some "\x7b\x7d" } =
      { response := ResponseWriter.fresh,
        calls := [.prepareNotification (payloadOf "NAME_CHANGE" "Bob" [] "" "Bob" "")],
        panic := some "runtime error: index out of range [-1]" } := by
  constructor <;> decide

/-- C4: for every CHAT payload `prepareNotification` returns no error and a
notification whose message is the HTML-to-text conversion of the event body,
whatever the emphasis delimiter, whose title is the display name followed by
` said`, whose topic is the configured topic and whose tags are speech_balloon
and message; with the conversion modelled as markup stripping, the body
`<b>hello</b>` gives the message `hello`. -/
theorem prepareNotification_chat (html2text : String → String) (topic bold : String)
    (p : OwncastPayload) (h : p.Type_ = "CHAT") :
    prepareNotification html2text topic bold p =
      .returned ({ Message := html2text p.EventData.Body,
                   Title := p.EventData.User.DisplayName ++ " said",
                   Topic := topic,
                   Tags := ["speech_balloon", "message"] }, none) ∧
    (p.EventData.Body = "<b>hello</b>" →
      prepareNotification HTML2Text topic bold p =
        .returned ({ Message := "hello",
                     Title := p.EventData.User.DisplayName ++ " said",
                     Topic := topic,
                     Tags := ["speech_balloon", "message"] }, none)) := by
  refine ⟨by simp [prepareNotification, h], ?_⟩
  intro hb
  have hconv : HTML2Text "<b>hello</b>" = "hello" := by decide
  simp [prepareNotification, h, hb, hconv]

/-- Witness of C4: a CHAT event from Alice with body `<b>hello</b>`, markdown on. -/
theorem prepareNotification_chat_witness :
    prepareNotification HTML2Text "mytopic" "**"
        (payloadOf "CHAT" "Alice" [] "<b>hello</b>" "" "") =
      .returned ({ Message := "hello", Title := "Alice said", Topic := "mytopic",
                   Tags := ["speech_balloon", "message"] }, none) :=
  (prepareNotification_chat HTML2Text "mytopic" "**"
    (payloadOf "CHAT" "Alice" [] "<b>hello</b>" "" "") rfl).2 rfl

/-! ## Claims on the inbound listener -/

theorem sendNotification_error_of_status (post : NtfyNotification → Except String Nat)
    (n : NtfyNotification) (code : Nat) (h : post n = .ok code) (hc : code ≠ 200) :
    sendNotification post n = some ("ntfy returned status code " ++ toString code) := by
  simp [sendNotification, h, hc]

theorem sendNotification_ok (post : NtfyNotification → Except String Nat)
    (n : NtfyNotification) (h : post n = .ok 200) : sendNotification post n = none := by
  simp [sendNotification, h]

/-- When translation succeeds and forwarding fails, the response is the 500 error
and nothing else. -/
theorem handleRequest_forward_failure_translated
    (unmarshal : String → Option OwncastPayload) (html2text : String → String)
    (topic bold : String) (post : NtfyNotification → Except String Nat) (request : Request)
    (body : String) (payload : OwncastPayload) (n : NtfyNotification) (err : String)
    (hm : request.Method = "POST") (hb : request.Body = some body)
    (hu : unmarshal body = some payload)
    (hp : prepareNotification html2text topic bold payload = .returned (n, none))
    (hs : sendNotification post n = some err) :
    (handleRequest unmarshal html2text topic bold post request).response =
      { wroteHeader := true, status := 500, body := "Error sending notification\n" } := by
  simp [handleRequest, hm, hb, hu, hp, hs, httpError, ResponseWriter.fresh,
    ResponseWriter.WriteHeader, ResponseWriter.Write]

/-- C5 (the code departs from it): a POST whose body parses to a payload of the
unrecognized type FOO, with the gateway answering 503, so that
`sendNotification` returns an error. The 501 written first stays the status of
the response; the later `WriteHeader(500)` is ignored and only the second
error line is appended to the body. -/
theorem handleRequest_unrecognized_forward_failure_status :
    sendNotification (fun _ => .ok 503) NtfyNotification.zero ≠ none ∧
    (handleRequest (fun _ => some (payloadOf "FOO" "" [] "" "" "")) HTML2Text "mytopic" ""
        (fun _ => .ok 503) { Method := "POST", Body := some "\x7b\"type\":\"FOO\"\x7d" }).response =
      { wroteHeader := true, status := 501,
        body := "Unknown Owncast Message\nError sending notification\n" } ∧
    (handleRequest (fun _ => some (payloadOf "FOO" "" [] "" "" "")) HTML2Text "mytopic" ""
        (fun _ => .ok 503)
        { Method := "POST", Body := some "\x7b\"type\":\"FOO\"\x7d" }).response.status ≠ 500 := by
  refine ⟨by decide, by decide, by decide⟩

/-- C6: for every POST request whose body parses to a payload of unrecognized
type, `handleRequest` answers with status 501 and goes on: after the call to
`prepareNotification` it calls `sendNotification` exactly once, with the empty
notification. -/
theorem handleRequest_unrecognized_continues
    (unmarshal : String → Option OwncastPayload) (html2text : String → String)
    (topic bold : String) (post : NtfyNotification → Except String Nat) (request : Request)
    (body : String) (payload : OwncastPayload)
    (hm : request.Method = "POST") (hb : request.Body = some body)
    (hu : unmarshal body = some payload) (ht : payload.Type_ ∉ recognizedTypes) :
    (handleRequest unmarshal html2text topic bold post request).response.wroteHeader = true ∧
    (handleRequest unmarshal html2text topic bold post request).response.status = 501 ∧
    (handleRequest unmarshal html2text topic bold post request).calls =
      [.prepareNotification payload,
       .sendNotification { Message := "", Topic := "", Title := "", Tags := [] }] ∧
    (handleRequest unmarshal html2text topic bold post request).panic = none := by
  have hp := prepareNotification_unrecognized html2text topic bold payload ht
  simp only [NtfyNotification.zero] at hp
  cases hs : sendNotification post { Message := "", Topic := "", Title := "", Tags := [] } <;>
    simp [handleRequest, hm, hb, hu, hp, hs, httpError, ResponseWriter.fresh,
      ResponseWriter.WriteHeader, ResponseWriter.Write]

/-- Witness of C6: a POST carrying the type FOO, once with the gateway answering
200 and once with it answering 503. -/
theorem handleRequest_unrecognized_continues_witness :
    (handleRequest (fun _ => some (payloadOf "FOO" "" [] "" "" "")) HTML2Text "mytopic" ""
        (fun _ => .ok 200) { Method := "POST", Body := some "\x7b\"type\":\"FOO\"\x7d" }).response.status
      = 501 ∧
    (handleRequest (fun _ => some (payloadOf "FOO" "" [] "" "" "")) HTML2Text "mytopic" ""
        (fun _ => .ok 503) { Method := "POST", Body := some "\x7b\"type\":\"FOO\"\x7d" }).calls =
      [.prepareNotification (payloadOf "FOO" "" [] "" "" ""),
       .sendNotification { Message := "", Topic := "", Title := "", Tags := [] }] :=
  ⟨(handleRequest_unrecognized_continues (fun _ => some (payloadOf "FOO" "" [] "" "" ""))
      HTML2Text "mytopic" "" (fun _ => .ok 200)
      { Method := "POST", Body := some "\x7b\"type\":\"FOO\"\x7d" } "\x7b\"type\":\"FOO\"\x7d"
      (payloadOf "FOO" "" [] "" "" "") rfl rfl rfl (by decide)).2.1,
   (handleRequest_unrecognized_continues (fun _ => some (payloadOf "FOO" "" [] "" "" ""))
      HTML2Text "mytopic" "" (fun _ => .ok 503)
      { Method := "POST", Body := some "\x7b\"type\":\"FOO\"\x7d" } "\x7b\"type\":\"FOO\"\x7d"
      (payloadOf "FOO" "" [] "" "" "") rfl rfl rfl (by decide)).2.2.1⟩

/-- C7: a request rejected before translation gets a 4xx status and is dropped.
When the method is not exactly POST the response is 405; when the method is
POST and the body does not parse as a JSON event the response is 400; in both
cases `handleRequest` calls neither `prepareNotification` nor
`sendNotification`. -/
theorem handleRequest_rejects_early
    (unmarshal : String → Option OwncastPayload) (html2text : String → String)
    (topic bold : String) (post : NtfyNotification → Except String Nat) (request : Request) :
    (request.Method ≠ "POST" →
      handleRequest unmarshal html2text topic bold post request =
        { response := { wroteHeader := true, status := 405, body := "Invalid request method\n" },
          calls := [], panic := none }) ∧
    (∀ body, request.Method = "POST" → request.Body = some body → unmarshal body = none →
      handleRequest unmarshal html2text topic bold post request =
        { response := { wroteHeader := true, status := 400,
                        body := "Error parsing JSON payload\n" },
          calls := [], panic := none }) := by
  constructor
  · intro hm
    simp [handleRequest, hm, httpError, ResponseWriter.fresh, ResponseWriter.WriteHeader,
      ResponseWriter.Write]
  · intro body hm hb hu
    simp [handleRequest, hm, hb, hu, httpError, ResponseWriter.fresh,
      ResponseWriter.WriteHeader, ResponseWriter.Write]

/-- Witness of C7: a GET request, a request with the method in lower case, and a
POST whose body the parser refuses. -/
theorem handleRequest_rejects_early_witness :
    handleRequest (fun _ => some (payloadOf "CHAT" "Alice" [] "hi" "" "")) HTML2Text "mytopic" ""
        (fun _ => .ok 200) { Method := "GET", Body := some "\x7b\x7d" } =
      { response := { wroteHeader := true, status := 405, body := "Invalid request method\n" },
        calls := [], panic := none } ∧
    handleRequest (fun _ => some (payloadOf "CHAT" "Alice" [] "hi" "" "")) HTML2Text "mytopic" ""
        (fun _ => .ok 200) { Method := "post", Body := some "\x7b\x7d" } =
      { response := { wroteHeader := true, status := 405, body := "Invalid request method\n" },
        calls := [], panic := none } ∧
    handleRequest (fun _ => none) HTML2Text "mytopic" ""
        (fun _ => .ok 200) { Method := "POST", Body := some "not json" } =
      { response := { wroteHeader := true, status := 400,
                      body := "Error parsing JSON payload\n" },
        calls := [], panic := none } :=
  ⟨(handleRequest_rejects_early (fun _ => some (payloadOf "CHAT" "Alice" [] "hi" "" ""))
      HTML2Text "mytopic" "" (fun _ => .ok 200) { Method := "GET", Body := some "\x7b\x7d" }).1
      (by decide),
   (handleRequest_rejects_early (fun _ => some (payloadOf "CHAT" "Alice" [] "hi" "" ""))
      HTML2Text "mytopic" "" (fun _ => .ok 200) { Method := "post", Body := some "\x7b\x7d" }).1
      (by decide),
   (handleRequest_rejects_early (fun _ => none) HTML2Text "mytopic" "" (fun _ => .ok 200)
      { Method := "POST", Body := some "not json" }).2 "not json" rfl rfl rfl⟩

/-- C8: for every POST request whose body parses, whose type is recognized (with
previous names present for NAME_CHANGE, so that translation succeeds) and whose
notification the gateway answers with 200, `handleRequest` responds with status
200 and the body `Payload received successfully` followed by a line feed; that
is the whole response, and the notification was forwarded once. -/
theorem handleRequest_success
    (unmarshal : String → Option OwncastPayload) (html2text : String → String)
    (topic bold : String) (post : NtfyNotification → Except String Nat) (request : Request)
    (body : String) (payload : OwncastPayload)
    (hm : request.Method = "POST") (hb : request.Body = some body)
    (hu : unmarshal body = some payload) (ht : payload.Type_ ∈ recognizedTypes)
    (hne : payload.Type_ = "NAME_CHANGE" → payload.EventData.User.PreviousNames ≠ [])
    (hpost : ∀ n, prepareNotification html2text topic bold payload = .returned (n, none) →
      post n = .ok 200) :
    (handleRequest unmarshal html2text topic bold post request).response =
      { wroteHeader := true, status := 200, body := "Payload received successfully\n" } ∧
    (handleRequest unmarshal html2text topic bold post request).panic = none ∧
    ∃ n, prepareNotification html2text topic bold payload = .returned (n, none) ∧
      (handleRequest unmarshal html2text topic bold post request).calls =
        [.prepareNotification payload, .sendNotification n] := by
  obtain ⟨n, hp⟩ := prepareNotification_recognized html2text topic bold payload ht hne
  have hs := sendNotification_ok post n (hpost n hp)
  refine ⟨?_, ?_, n, hp, ?_⟩ <;>
    simp [handleRequest, hm, hb, hu, hp, hs, ResponseWriter.fresh,
      ResponseWriter.WriteHeader, ResponseWriter.Write]

/-- Witness of C8: a USER_JOINED event for Alice, forwarded to a gateway that
answers 200. -/
theorem handleRequest_success_witness :
    (handleRequest (fun _ => some (payloadOf "USER_JOINED" "Alice" [] "" "" "")) HTML2Text
        "mytopic" "" (fun _ => .ok 200) { Method := "POST", Body := some "\x7b\x7d" }).response =
      { wroteHeader := true, status := 200, body := "Payload received successfully\n" } :=
  (handleRequest_success (fun _ => some (payloadOf "USER_JOINED" "Alice" [] "" "" ""))
    HTML2Text "mytopic" "" (fun _ => .ok 200) { Method := "POST", Body := some "\x7b\x7d" } "\x7b\x7d"
    (payloadOf "USER_JOINED" "Alice" [] "" "" "") rfl rfl rfl (by decide) (by decide)
    (fun _ _ => rfl)).1

/-! ## Lemmas on the pattern matcher -/

theorem literal_eq_some (p s r : List Char) : literal p s = some r ↔ s = p ++ r := by
  induction p generalizing s with
  | nil =>
    simp only [literal, List.nil_append, Option.some.injEq]
  | cons c cs ih =>
    cases s with
    | nil => simp [literal]
    | cons d s =>
      simp only [literal, List.cons_append, List.cons.injEq]
      by_cases hcd : c = d
      · simp [hcd, ih, eq_comm]
      · have hdc : ¬ d = c := fun h => hcd h.symm
        simp [hcd, hdc]

theorem topicToEnd_eq_some (s t : List Char) :
    topicToEnd s = some t ↔ t = s ∧ ValidTopic s := by
  unfold topicToEnd ValidTopic
  constructor
  · intro h
    split at h
    · rename_i hc
      have hall := List.dropWhile_eq_nil_iff.mp hc.2
      have hself := List.takeWhile_eq_self_iff.mpr hall
      rw [hself] at h hc
      exact ⟨(Option.some.inj h).symm, hc.1, hall⟩
    · exact absurd h (by simp)
  · rintro ⟨rfl, hne, hall⟩
    have hself := List.takeWhile_eq_self_iff.mpr hall
    have hdrop := List.dropWhile_eq_nil_iff.mpr hall
    rw [hself, hdrop]
    simp [hne]

theorem slashTopic_eq_some (s t : List Char) :
    slashTopic s = some t ↔ s = '/' :: t ∧ ValidTopic t := by
  unfold slashTopic
  cases hl : literal ['/'] s with
  | none =>
    constructor
    · intro h; exact absurd h (by simp)
    · rintro ⟨rfl, _⟩
      simp [literal] at hl
  | some rest =>
    have hs := (literal_eq_some _ _ _).mp hl
    simp only [List.singleton_append] at hs
    subst hs
    simp only [topicToEnd_eq_some, List.cons.injEq, true_and]
    constructor
    · rintro ⟨rfl, hv⟩; exact ⟨rfl, hv⟩
    · rintro ⟨rfl, hv⟩; exact ⟨rfl, hv⟩

theorem lazyAnyThen_sound (s x t : List Char) (h : lazyAnyThen s = some (x, t)) :
    s = x ++ '/' :: t ∧ ValidTopic t ∧ '\n' ∉ x := by
  induction s generalizing x with
  | nil =>
    simp [lazyAnyThen, slashTopic, literal] at h
  | cons c rest ih =>
    simp only [lazyAnyThen] at h
    cases hst : slashTopic (c :: rest) with
    | some t1 =>
      rw [hst] at h
      simp only [Option.some.injEq, Prod.mk.injEq] at h
      obtain ⟨rfl, rfl⟩ := h
      have := (slashTopic_eq_some _ _).mp hst
      exact ⟨by simpa using this.1, this.2, by simp⟩
    | none =>
      rw [hst] at h
      by_cases hc : c = '\n'
      · simp [hc] at h
      · simp only [hc, if_false, Option.map_eq_some', Prod.mk.injEq] at h
        obtain ⟨⟨x1, t1⟩, hrec, rfl, rfl⟩ := h
        obtain ⟨h1, h2, h3⟩ := ih x1 hrec
        refine ⟨by simp [h1], h2, ?_⟩
        simp only [List.mem_cons, not_or]
        exact ⟨fun h => hc h.symm, h3⟩

theorem lazyAnyThen_complete (x t : List Char) (ht : ValidTopic t) (hx : '\n' ∉ x) :
    ∃ m, lazyAnyThen (x ++ '/' :: t) = some m := by
  induction x with
  | nil =>
    have hst : slashTopic ('/' :: t) = some t := (slashTopic_eq_some _ _).mpr ⟨rfl, ht⟩
    exact ⟨([], t), by simp [lazyAnyThen, hst]⟩
  | cons c x ih =>
    simp only [List.mem_cons, not_or] at hx
    obtain ⟨m, hm⟩ := ih hx.2
    have hc : ¬ c = '\n' := fun h => hx.1 h.symm
    cases hst : slashTopic (c :: (x ++ '/' :: t)) with
    | some t1 => exact ⟨([], t1), by simp [lazyAnyThen, hst]⟩
    | none => exact ⟨(c :: m.1, m.2), by simp [lazyAnyThen, hst, hc, hm]⟩

theorem afterScheme_sound (scheme s g1 t : List Char) (h : afterScheme scheme s = some (g1, t)) :
    ∃ x, g1 = scheme ++ [':', '/', '/'] ++ x ∧ s = [':', '/', '/'] ++ x ++ '/' :: t ∧
      ValidTopic t ∧ '\n' ∉ x := by
  unfold afterScheme at h
  cases hl : literal [':', '/', '/'] s with
  | none => simp [hl] at h
  | some rest =>
    rw [hl] at h
    simp only [Option.map_eq_some', Prod.mk.injEq] at h
    obtain ⟨⟨x, t1⟩, hrec, rfl, rfl⟩ := h
    obtain ⟨h1, h2, h3⟩ := lazyAnyThen_sound _ _ _ hrec
    have hs := (literal_eq_some _ _ _).mp hl
    exact ⟨x, rfl, by rw [hs, h1]; simp, h2, h3⟩

theorem matchHere_sound (s g1 t : List Char) (h : matchHere s = some (g1, t)) :
    ∃ x, (g1 = ['h', 't', 't', 'p', ':', '/', '/'] ++ x ∨
          g1 = ['h', 't', 't', 'p', 's', ':', '/', '/'] ++ x) ∧
      s = g1 ++ '/' :: t ∧ ValidTopic t ∧ '\n' ∉ x := by
  unfold matchHere at h
  cases hl : literal ['h', 't', 't', 'p'] s with
  | none => simp [hl] at h
  | some r =>
    rw [hl] at h
    have hs := (literal_eq_some _ _ _).mp hl
    simp only at h
    cases hl2 : literal ['s'] r with
    | none =>
      rw [hl2] at h
      simp only at h
      obtain ⟨x, hg, hr, hv, hx⟩ := afterScheme_sound _ _ _ _ h
      refine ⟨x, Or.inl (by simpa using hg), ?_, hv, hx⟩
      rw [hs, hr, hg]; simp
    | some r1 =>
      rw [hl2] at h
      have hr1 := (literal_eq_some _ _ _).mp hl2
      simp only at h
      cases hw : afterScheme ['h', 't', 't', 'p', 's'] r1 with
      | some m =>
        rw [hw] at h
        simp only [Option.some.injEq] at h
        subst h
        obtain ⟨x, hg, hr, hv, hx⟩ := afterScheme_sound _ _ _ _ hw
        refine ⟨x, Or.inr (by simpa using hg), ?_, hv, hx⟩
        rw [hs, hr1, hr, hg]; simp
      | none =>
        rw [hw] at h
        simp only at h
        obtain ⟨x, hg, hr, hv, hx⟩ := afterScheme_sound _ _ _ _ h
        refine ⟨x, Or.inl (by simpa using hg), ?_, hv, hx⟩
        rw [hs, hr, hg]; simp

theorem urlReExec_sound (s g1 t : List Char) (h : urlReExec s = some (g1, t)) :
    ∃ pre x, (g1 = ['h', 't', 't', 'p', ':', '/', '/'] ++ x ∨
              g1 = ['h', 't', 't', 'p', 's', ':', '/', '/'] ++ x) ∧
      s = pre ++ (g1 ++ '/' :: t) ∧ ValidTopic t ∧ '\n' ∉ x := by
  induction s with
  | nil =>
    simp only [urlReExec] at h
    obtain ⟨x, hg, hs, hv, hx⟩ := matchHere_sound _ _ _ h
    exact ⟨[], x, hg, hs, hv, hx⟩
  | cons c rest ih =>
    simp only [urlReExec] at h
    cases hm : matchHere (c :: rest) with
    | some m =>
      rw [hm] at h
      simp only [Option.some.injEq] at h
      subst h
      obtain ⟨x, hg, hs, hv, hx⟩ := matchHere_sound _ _ _ hm
      exact ⟨[], x, hg, by simpa using hs, hv, hx⟩
    | none =>
      rw [hm] at h
      simp only at h
      obtain ⟨pre, x, hg, hs, hv, hx⟩ := ih h
      exact ⟨c :: pre, x, hg, by rw [hs]; simp, hv, hx⟩

theorem urlReExec_of_matchHere (s : List Char) (m : List Char × List Char)
    (h : matchHere s = some m) : urlReExec s = some m := by
  cases s with
  | nil => simpa [urlReExec] using h
  | cons c rest => simp [urlReExec, h]

theorem matchHere_http (rest : List Char) :
    matchHere (['h', 't', 't', 'p', ':', '/', '/'] ++ rest) =
      (lazyAnyThen rest).map fun m => (['h', 't', 't', 'p', ':', '/', '/'] ++ m.1, m.2) := by
  simp [matchHere, literal, afterScheme]

theorem matchHere_https (rest : List Char) :
    matchHere (['h', 't', 't', 'p', 's', ':', '/', '/'] ++ rest) =
      (lazyAnyThen rest).map fun m => (['h', 't', 't', 'p', 's', ':', '/', '/'] ++ m.1, m.2) := by
  cases h : lazyAnyThen rest <;> simp [matchHere, literal, afterScheme, h]

theorem matchHere_cons_of_ne (c : Char) (rest : List Char) (hc : c ≠ 'h') :
    matchHere (c :: rest) = none := by
  have hne : ¬ 'h' = c := fun h => hc h.symm
  simp [matchHere, literal, hne]

theorem urlReExec_step_none (c : Char) (rest : List Char) (h : matchHere (c :: rest) = none) :
    urlReExec (c :: rest) = urlReExec rest := by
  simp only [urlReExec, h]

theorem urlReExec_http_skip (rest : List Char)
    (h : matchHere (['h', 't', 't', 'p', ':', '/', '/'] ++ rest) = none) :
    urlReExec (['h', 't', 't', 'p', ':', '/', '/'] ++ rest) = urlReExec rest := by
  simp only [List.cons_append, List.nil_append] at h ⊢
  rw [urlReExec_step_none _ _ h,
    urlReExec_step_none _ _ (matchHere_cons_of_ne _ _ (by decide)),
    urlReExec_step_none _ _ (matchHere_cons_of_ne _ _ (by decide)),
    urlReExec_step_none _ _ (matchHere_cons_of_ne _ _ (by decide)),
    urlReExec_step_none _ _ (matchHere_cons_of_ne _ _ (by decide)),
    urlReExec_step_none _ _ (matchHere_cons_of_ne _ _ (by decide)),
    urlReExec_step_none _ _ (matchHere_cons_of_ne _ _ (by decide))]

theorem urlReExec_https_skip (rest : List Char)
    (h : matchHere (['h', 't', 't', 'p', 's', ':', '/', '/'] ++ rest) = none) :
    urlReExec (['h', 't', 't', 'p', 's', ':', '/', '/'] ++ rest) = urlReExec rest := by
  simp only [List.cons_append, List.nil_append] at h ⊢
  rw [urlReExec_step_none _ _ h,
    urlReExec_step_none _ _ (matchHere_cons_of_ne _ _ (by decide)),
    urlReExec_step_none _ _ (matchHere_cons_of_ne _ _ (by decide)),
    urlReExec_step_none _ _ (matchHere_cons_of_ne _ _ (by decide)),
    urlReExec_step_none _ _ (matchHere_cons_of_ne _ _ (by decide)),
    urlReExec_step_none _ _ (matchHere_cons_of_ne _ _ (by decide)),
    urlReExec_step_none _ _ (matchHere_cons_of_ne _ _ (by decide)),
    urlReExec_step_none _ _ (matchHere_cons_of_ne _ _ (by decide))]

theorem matchHere_complete (x t : List Char) (ht : ValidTopic t) (hx : '\n' ∉ x) :
    (∃ m, matchHere (['h', 't', 't', 'p', ':', '/', '/'] ++ x ++ '/' :: t) = some m) ∧
    (∃ m, matchHere (['h', 't', 't', 'p', 's', ':', '/', '/'] ++ x ++ '/' :: t) = some m) := by
  obtain ⟨m, hm⟩ := lazyAnyThen_complete x t ht hx
  constructor
  · rw [List.append_assoc, matchHere_http, hm]; exact ⟨_, rfl⟩
  · rw [List.append_assoc, matchHere_https, hm]; exact ⟨_, rfl⟩

theorem urlReExec_append_left (pre r : List Char) (h : ∃ m, matchHere r = some m) :
    ∃ m, urlReExec (pre ++ r) = some m := by
  induction pre with
  | nil =>
    obtain ⟨m, hm⟩ := h
    exact ⟨m, urlReExec_of_matchHere r m hm⟩
  | cons c pre ih =>
    cases hm : matchHere (c :: (pre ++ r)) with
    | some m => exact ⟨m, by simp [urlReExec, hm]⟩
    | none =>
      obtain ⟨m, hrec⟩ := ih
      exact ⟨m, by simp [urlReExec, hm, hrec]⟩

/-- On a text without line feed the search succeeds as soon as the text ends
with a part of the shape scheme, text, `/`, topic. -/
theorem urlReExec_complete (s : List Char) (hnl : '\n' ∉ s) (h : EndsWithUrlAndTopic s) :
    ∃ m, urlReExec s = some m := by
  obtain ⟨pre, rest, rfl, x, t, hshape, ht⟩ := h
  have hx : '\n' ∉ x := by
    intro hmem
    apply hnl
    rcases hshape with rfl | rfl <;> simp [hmem]
  obtain ⟨h1, h2⟩ := matchHere_complete x t ht hx
  rcases hshape with rfl | rfl
  · exact urlReExec_append_left pre _ h1
  · exact urlReExec_append_left pre _ h2

/-- Whatever the search finds is a part of the shape scheme, text, `/`, topic at
the end of the text. -/
theorem endsWith_of_urlReExec (s : List Char) (m : List Char × List Char)
    (h : urlReExec s = some m) : EndsWithUrlAndTopic s := by
  obtain ⟨g1, t⟩ := m
  obtain ⟨pre, x, hg, hs, hv, _⟩ := urlReExec_sound s g1 t h
  refine ⟨pre, g1 ++ '/' :: t, hs, x, t, ?_, hv⟩
  rcases hg with rfl | rfl
  · exact Or.inl rfl
  · exact Or.inr rfl

theorem not_endsWith_of_urlReExec_none (s : List Char) (hnl : '\n' ∉ s)
    (h : urlReExec s = none) : ¬ EndsWithUrlAndTopic s := by
  intro hends
  obtain ⟨m, hm⟩ := urlReExec_complete s hnl hends
  rw [h] at hm
  exact absurd hm (by simp)

/-- When the text begins with one of the two schemes and holds no line feed, the
match the search returns begins at the first character. -/
theorem urlReExec_anchored (s rest g1 t : List Char)
    (hpre : s = ['h', 't', 't', 'p', ':', '/', '/'] ++ rest ∨
            s = ['h', 't', 't', 'p', 's', ':', '/', '/'] ++ rest)
    (hnl : '\n' ∉ s) (h : urlReExec s = some (g1, t)) : s = g1 ++ '/' :: t := by
  cases hm : matchHere s with
  | some m =>
    rw [urlReExec_of_matchHere s m hm] at h
    simp only [Option.some.injEq] at h
    subst h
    obtain ⟨_, _, hs, _, _⟩ := matchHere_sound _ _ _ hm
    exact hs
  | none =>
    exfalso
    have hrest : urlReExec rest = some (g1, t) := by
      rcases hpre with rfl | rfl
      · rw [urlReExec_http_skip rest hm] at h; exact h
      · rw [urlReExec_https_skip rest hm] at h; exact h
    obtain ⟨pre, x, _, hs, hv, _⟩ := urlReExec_sound rest g1 t hrest
    have hnlrest : '\n' ∉ pre ++ g1 := by
      intro hmem
      apply hnl
      have : '\n' ∈ rest := by rw [hs, ← List.append_assoc]; exact List.mem_append_left _ hmem
      rcases hpre with rfl | rfl <;> exact List.mem_append_right _ this
    obtain ⟨m, hlazy⟩ := lazyAnyThen_complete (pre ++ g1) t hv hnlrest
    rw [List.append_assoc, ← hs] at hlazy
    rcases hpre with rfl | rfl
    · rw [matchHere_http, hlazy] at hm; exact absurd hm (by simp)
    · rw [matchHere_https, hlazy] at hm; exact absurd hm (by simp)

/-- The pattern matches at the start of a text exactly when the text has the
shape `IsUrlMatch`. -/
theorem matchHere_isSome_iff (s : List Char) : (∃ m, matchHere s = some m) ↔ IsUrlMatch s := by
  constructor
  · rintro ⟨⟨g1, t⟩, hm⟩
    obtain ⟨x, hg, hs, hv, hx⟩ := matchHere_sound s g1 t hm
    refine ⟨x, t, ?_, hx, hv⟩
    rcases hg with rfl | rfl
    · exact Or.inl hs
    · exact Or.inr hs
  · rintro ⟨x, t, hshape, hx, hv⟩
    obtain ⟨h1, h2⟩ := matchHere_complete x t hv hx
    rcases hshape with rfl | rfl
    · exact h1
    · exact h2

theorem not_isUrlMatch_of_matchHere_none (s : List Char) (h : matchHere s = none) :
    ¬ IsUrlMatch s := by
  intro hm
  obtain ⟨m, hsome⟩ := (matchHere_isSome_iff s).mpr hm
  rw [h] at hsome
  exact absurd hsome (by simp)

/-- The match the search returns starts at the leftmost position of the text from
which the pattern matches: the pattern matches there and at no earlier
position. -/
theorem urlReExec_leftmost (s g1 t : List Char) (h : urlReExec s = some (g1, t)) :
    ∃ pre, s = pre ++ (g1 ++ '/' :: t) ∧ IsUrlMatch (g1 ++ '/' :: t) ∧
      ∀ k, k < pre.length → ¬ IsUrlMatch (s.drop k) := by
  induction s with
  | nil =>
    simp only [urlReExec] at h
    obtain ⟨_, _, hs, _, _⟩ := matchHere_sound _ _ _ h
    refine ⟨[], hs, ?_, fun k hk => absurd hk (by simp)⟩
    rw [← hs]
    exact (matchHere_isSome_iff _).mp ⟨_, h⟩
  | cons c rest ih =>
    cases hm : matchHere (c :: rest) with
    | some m =>
      rw [urlReExec_of_matchHere _ m hm] at h
      simp only [Option.some.injEq] at h
      subst h
      obtain ⟨_, _, hs, _, _⟩ := matchHere_sound _ _ _ hm
      refine ⟨[], hs, ?_, fun k hk => absurd hk (by simp)⟩
      rw [← hs]
      exact (matchHere_isSome_iff _).mp ⟨_, hm⟩
    | none =>
      rw [urlReExec_step_none c rest hm] at h
      obtain ⟨pre, hs, hmatch, hleft⟩ := ih h
      refine ⟨c :: pre, by rw [hs]; simp, hmatch, ?_⟩
      intro k hk
      cases k with
      | zero => exact not_isUrlMatch_of_matchHere_none _ hm
      | succ j =>
        simp only [List.drop_succ_cons]
        exact hleft j (by simpa using hk)

theorem split_at_last_slash (a b c d : List Char) (h : a ++ '/' :: b = c ++ '/' :: d)
    (hb : '/' ∉ b) (hd : '/' ∉ d) : a = c ∧ b = d := by
  induction a generalizing c with
  | nil =>
    cases c with
    | nil => simpa using h
    | cons e c =>
      simp only [List.nil_append, List.cons_append, List.cons.injEq] at h
      exact absurd (by rw [h.2]; simp) hb
  | cons x a ih =>
    cases c with
    | nil =>
      simp only [List.nil_append, List.cons_append, List.cons.injEq] at h
      exact absurd (by rw [← h.2]; simp) hd
    | cons e c =>
      simp only [List.cons_append, List.cons.injEq] at h
      obtain ⟨rfl, hrest⟩ := h
      obtain ⟨rfl, rfl⟩ := ih c hrest
      exact ⟨rfl, rfl⟩

/-- Two ways of cutting a text into a part before, a base, `/` and a slash-free
topic, each with the pattern matching from the base on and at no earlier
position, give the same base and topic. -/
theorem leftmost_match_unique (s pre1 a1 b1 pre2 a2 b2 : List Char)
    (h1 : s = pre1 ++ (a1 ++ '/' :: b1)) (h2 : s = pre2 ++ (a2 ++ '/' :: b2))
    (hb1 : '/' ∉ b1) (hb2 : '/' ∉ b2)
    (hm1 : IsUrlMatch (a1 ++ '/' :: b1)) (hm2 : IsUrlMatch (a2 ++ '/' :: b2))
    (hl1 : ∀ k, k < pre1.length → ¬ IsUrlMatch (s.drop k))
    (hl2 : ∀ k, k < pre2.length → ¬ IsUrlMatch (s.drop k)) : a1 = a2 ∧ b1 = b2 := by
  have d1 : s.drop pre1.length = a1 ++ '/' :: b1 := by rw [h1]; simp
  have d2 : s.drop pre2.length = a2 ++ '/' :: b2 := by rw [h2]; simp
  have hlen : pre1.length = pre2.length := by
    rcases Nat.lt_trichotomy pre1.length pre2.length with hlt | heq | hgt
    · exact absurd (d1 ▸ hm1) (hl2 _ hlt)
    · exact heq
    · exact absurd (d2 ▸ hm2) (hl1 _ hgt)
  rw [hlen, d2] at d1
  exact (split_at_last_slash _ _ _ _ d1 hb2 hb1).symm.imp Eq.symm Eq.symm |>.symm

/-! ## Claims on start-up -/

theorem validateFlags_eq_none_iff (ntfyUrl : String) :
    validateFlags ntfyUrl = none ↔
      ntfyUrl ≠ "" ∧ HasPrefix ntfyUrl "http" = true ∧ MatchString ntfyUrl = true := by
  unfold validateFlags
  by_cases h1 : ntfyUrl = ""
  · simp [h1]
  · by_cases h2 : HasPrefix ntfyUrl "http" = true
    · by_cases h3 : MatchString ntfyUrl = true
      · simp [h1, h2, h3]
      · simp [h1, h2, h3]
    · simp [h1, h2]

theorem main_of_validateFlags_error (flags : Flags) (err : String)
    (h : validateFlags flags.ntfyUrl = some err) : main flags = .exited 1 err := by
  simp [main, h]

theorem main_serving_iff (flags : Flags) (g : Globals) :
    main flags = .serving g ↔
      validateFlags flags.ntfyUrl = none ∧
      ∃ g1 t, urlReExec flags.ntfyUrl.data = some (g1, t) ∧
        g = { serverUrl := String.mk g1, topic := String.mk t, bold := boldOf flags.markdown } := by
  unfold main FindStringSubmatch
  cases hv : validateFlags flags.ntfyUrl with
  | some err => simp
  | none =>
    cases hm : urlReExec flags.ntfyUrl.data with
    | none => simp
    | some m =>
      obtain ⟨g1, t⟩ := m
      simp only [Startup.serving.injEq, Option.some.injEq, Prod.mk.injEq, true_and]
      constructor
      · intro h; exact ⟨g1, t, ⟨rfl, rfl⟩, h.symm⟩
      · rintro ⟨_, _, ⟨rfl, rfl⟩, h⟩; exact h.symm

theorem findStringSubmatch_length (ntfyUrl : String) (h : validateFlags ntfyUrl = none) :
    (FindStringSubmatch ntfyUrl).length = 3 := by
  have hm := ((validateFlags_eq_none_iff ntfyUrl).mp h).2.2
  unfold MatchString at hm
  unfold FindStringSubmatch
  cases hex : urlReExec ntfyUrl.data with
  | none => simp [hex] at hm
  | some m => rfl

theorem topicChar_slash : topicChar '/' = false := by decide

/-- C9, as amended: for every configured URL that is empty, does not start with
`http`, or does not end with a part consisting of `http://` or `https://`, any
text, a `/` and a non-empty run of topic characters up to the end of the
string, `validateFlags` returns an error and `main` exits with status 1 before
`server()` is called; and for every URL that `validateFlags` accepts, the
regex extraction in `main` yields exactly three matches, so `main` goes on to
`server()`. -/
theorem validateFlags_rejects (flags : Flags) :
    ((flags.ntfyUrl = "" ∨ HasPrefix flags.ntfyUrl "http" = false ∨
        ¬ EndsWithUrlAndTopic flags.ntfyUrl.data) →
      ∃ err, validateFlags flags.ntfyUrl = some err ∧ main flags = .exited 1 err) ∧
    (validateFlags flags.ntfyUrl = none →
      (FindStringSubmatch flags.ntfyUrl).length = 3 ∧ ∃ g, main flags = .serving g) := by
  constructor
  · intro h
    cases hv : validateFlags flags.ntfyUrl with
    | some err => exact ⟨err, rfl, main_of_validateFlags_error flags err hv⟩
    | none =>
      exfalso
      obtain ⟨h1, h2, h3⟩ := (validateFlags_eq_none_iff _).mp hv
      rcases h with h | h | h
      · exact h1 h
      · rw [h] at h2; exact absurd h2 (by simp)
      · unfold MatchString at h3
        cases hex : urlReExec flags.ntfyUrl.data with
        | none => simp [hex] at h3
        | some m => exact h (endsWith_of_urlReExec _ m hex)
  · intro hv
    refine ⟨findStringSubmatch_length _ hv, ?_⟩
    have hm := ((validateFlags_eq_none_iff _).mp hv).2.2
    unfold MatchString at hm
    cases hex : urlReExec flags.ntfyUrl.data with
    | none => simp [hex] at hm
    | some m =>
      obtain ⟨g1, t⟩ := m
      exact ⟨_, (main_serving_iff flags _).mpr ⟨hv, g1, t, hex, rfl⟩⟩

/-- Witness of C9 as amended: the empty URL, a URL not starting with `http`, the
URLs `https://ntfy.sh` and `https://ntfy.sh/` without topic segment are
refused at start-up; `https://ntfy.sh/mytopic` is accepted with three matches. -/
theorem validateFlags_rejects_witness :
    (∃ err, validateFlags "" = some err ∧ main (flagsOf "" false) = .exited 1 err) ∧
    (∃ err, validateFlags "ftp://ntfy.sh/mytopic" = some err ∧
      main (flagsOf "ftp://ntfy.sh/mytopic" false) = .exited 1 err) ∧
    (∃ err, validateFlags "https://ntfy.sh" = some err ∧
      main (flagsOf "https://ntfy.sh" false) = .exited 1 err) ∧
    (∃ err, validateFlags "https://ntfy.sh/" = some err ∧
      main (flagsOf "https://ntfy.sh/" false) = .exited 1 err) ∧
    (FindStringSubmatch "https://ntfy.sh/mytopic").length = 3 ∧
    (∃ g, main (flagsOf "https://ntfy.sh/mytopic" false) = .serving g) :=
  ⟨(validateFlags_rejects (flagsOf "" false)).1 (Or.inl rfl),
   (validateFlags_rejects (flagsOf "ftp://ntfy.sh/mytopic" false)).1 (Or.inr (Or.inl (by decide))),
   (validateFlags_rejects (flagsOf "https://ntfy.sh" false)).1
     (Or.inr (Or.inr (not_endsWith_of_urlReExec_none _ (by decide) (by decide)))),
   (validateFlags_rejects (flagsOf "https://ntfy.sh/" false)).1
     (Or.inr (Or.inr (not_endsWith_of_urlReExec_none _ (by decide) (by decide)))),
   ((validateFlags_rejects (flagsOf "https://ntfy.sh/mytopic" false)).2 (by decide)).1,
   ((validateFlags_rejects (flagsOf "https://ntfy.sh/mytopic" false)).2 (by decide)).2⟩

/-- C9 as stated fails: the URL `http-https://h/t` does not consist of `http://`
or `https://`, text, `/` and a topic segment (its fifth character is `-`), yet
`validateFlags` accepts it, because the pattern is searched for anywhere in
the string and matches from the sixth character on. -/
theorem validateFlags_accepts_unanchored :
    ¬ ConsistsOfUrlAndTopic "http-https://h/t".data ∧
    validateFlags "http-https://h/t" = none ∧
    main (flagsOf "http-https://h/t" false) =
      .serving { serverUrl := "https://h", topic := "t", bold := "" } := by
  refine ⟨?_, by decide, by decide⟩
  have hdata : "http-https://h/t".data =
      ['h', 't', 't', 'p', '-', 'h', 't', 't', 'p', 's', ':', '/', '/', 'h', '/', 't'] := rfl
  rintro ⟨x, t, h | h, _⟩ <;> rw [hdata] at h <;> simp at h

/-- C10, as amended: for every URL accepted at start-up, the derived topic is the
non-empty text after the last `/` of the URL and holds no `/`; the derived base
URL is the text between the leftmost position of the URL from which the pattern
matches (from which the rest of the URL consists of `http://` or `https://`,
text without line feed, a `/` and a topic segment) and that last `/`, so it
begins with `http://` or `https://` and base, `/`, topic together form the end
of the URL; base and topic are the only strings of which this holds; and when
the URL itself begins with `http://` or `https://` and holds no line feed, base
followed by `/` and the topic is the whole URL. -/
theorem main_topic_is_last_segment (flags : Flags) (g : Globals)
    (h : main flags = .serving g) :
    g.topic ≠ "" ∧ '/' ∉ g.topic.data ∧
    (∃ pre : String, flags.ntfyUrl = pre ++ g.serverUrl ++ "/" ++ g.topic ∧
      IsUrlMatch (g.serverUrl ++ "/" ++ g.topic).data ∧
      ∀ k, k < pre.data.length → ¬ IsUrlMatch (flags.ntfyUrl.data.drop k)) ∧
    (HasPrefix g.serverUrl "http://" = true ∨ HasPrefix g.serverUrl "https://" = true) ∧
    ((HasPrefix flags.ntfyUrl "http://" = true ∨ HasPrefix flags.ntfyUrl "https://" = true) →
      '\n' ∉ flags.ntfyUrl.data → g.serverUrl ++ "/" ++ g.topic = flags.ntfyUrl) ∧
    (∀ pre1 base1 topic1 : String,
      flags.ntfyUrl = pre1 ++ base1 ++ "/" ++ topic1 → '/' ∉ topic1.data →
      IsUrlMatch (base1 ++ "/" ++ topic1).data →
      (∀ k, k < pre1.data.length → ¬ IsUrlMatch (flags.ntfyUrl.data.drop k)) →
      base1 = g.serverUrl ∧ topic1 = g.topic) := by
  obtain ⟨_, g1, t, hex, rfl⟩ := (main_serving_iff flags g).mp h
  obtain ⟨_, x, hg, _, hv, _⟩ := urlReExec_sound _ g1 t hex
  obtain ⟨pre, hs, hmatch, hleft⟩ := urlReExec_leftmost _ g1 t hex
  have hslash : ("/" : String).data = ['/'] := rfl
  have hnoslash : '/' ∉ t := by
    intro hmem
    have := hv.2 '/' hmem
    rw [topicChar_slash] at this
    exact absurd this (by simp)
  refine ⟨?_, hnoslash, ⟨String.mk pre, ?_, ?_, hleft⟩, ?_, ?_, ?_⟩
  · intro hempty
    apply hv.1
    have := congrArg String.data hempty
    simpa using this
  · apply String.ext
    simp [String.data_append, hslash, hs]
  · simpa [String.data_append, hslash] using hmatch
  · have h7 : ("http://" : String).data = ['h', 't', 't', 'p', ':', '/', '/'] := rfl
    have h8 : ("https://" : String).data = ['h', 't', 't', 'p', 's', ':', '/', '/'] := rfl
    unfold HasPrefix
    rcases hg with rfl | rfl
    · left; rw [h7, List.isPrefixOf_iff_prefix]; exact List.prefix_append _ _
    · right; rw [h8, List.isPrefixOf_iff_prefix]; exact List.prefix_append _ _
  · intro hpre hnl
    have h7 : ("http://" : String).data = ['h', 't', 't', 'p', ':', '/', '/'] := rfl
    have h8 : ("https://" : String).data = ['h', 't', 't', 'p', 's', ':', '/', '/'] := rfl
    have hshape : ∃ rest, flags.ntfyUrl.data = ['h', 't', 't', 'p', ':', '/', '/'] ++ rest ∨
        flags.ntfyUrl.data = ['h', 't', 't', 'p', 's', ':', '/', '/'] ++ rest := by
      unfold HasPrefix at hpre
      rcases hpre with hp | hp
      · rw [h7, List.isPrefixOf_iff_prefix] at hp
        obtain ⟨rest, hr⟩ := hp
        exact ⟨rest, Or.inl hr.symm⟩
      · rw [h8, List.isPrefixOf_iff_prefix] at hp
        obtain ⟨rest, hr⟩ := hp
        exact ⟨rest, Or.inr hr.symm⟩
    obtain ⟨rest, hrest⟩ := hshape
    have hwhole := urlReExec_anchored _ rest g1 t hrest hnl hex
    apply String.ext
    simp [String.data_append, hslash, hwhole]
  · intro pre1 base1 topic1 hurl hns hm1 hl1
    have hdata : flags.ntfyUrl.data = pre1.data ++ (base1.data ++ '/' :: topic1.data) := by
      have := congrArg String.data hurl
      simpa [String.data_append, hslash] using this
    have hm1l : IsUrlMatch (base1.data ++ '/' :: topic1.data) := by
      simpa [String.data_append, hslash] using hm1
    obtain ⟨hb, ht⟩ := leftmost_match_unique _ pre1.data base1.data topic1.data pre g1 t
      hdata hs hns hnoslash hm1l hmatch hl1 hleft
    exact ⟨String.ext hb, String.ext ht⟩

/-- Witness of C10 as amended: `https://ntfy.sh/a/b` gives the base
`https://ntfy.sh/a` and the topic `b`, and the two joined by `/` are the URL;
for `http-http://a/http://b/c` the base is `http://a/http://b`, from the
leftmost position where the pattern matches, and the cut with the later base
`http://b` is not leftmost. -/
theorem main_topic_is_last_segment_witness :
    main (flagsOf "https://ntfy.sh/a/b" false) =
      .serving { serverUrl := "https://ntfy.sh/a", topic := "b", bold := "" } ∧
    ("https://ntfy.sh/a" : String) ++ "/" ++ "b" = "https://ntfy.sh/a/b" ∧
    main (flagsOf "http-http://a/http://b/c" false) =
      .serving { serverUrl := "http://a/http://b", topic := "c", bold := "" } ∧
    (∃ pre : String, "http-http://a/http://b/c" = pre ++ "http://a/http://b" ++ "/" ++ "c" ∧
      IsUrlMatch ("http://a/http://b" ++ "/" ++ "c" : String).data ∧
      ∀ k, k < pre.data.length →
        ¬ IsUrlMatch (("http-http://a/http://b/c" : String).data.drop k)) :=
  ⟨by decide,
   (main_topic_is_last_segment (flagsOf "https://ntfy.sh/a/b" false)
      { serverUrl := "https://ntfy.sh/a", topic := "b", bold := "" } (by decide)).2.2.2.2.1
      (Or.inr (by decide)) (by decide),
   by decide,
   (main_topic_is_last_segment (flagsOf "http-http://a/http://b/c" false)
      { serverUrl := "http://a/http://b", topic := "c", bold := "" } (by decide)).2.2.1⟩

/-- C10 as stated fails. For the accepted URL `http-https://h/t` the text before
the last `/` is `http-https://h`, but the derived base URL is `https://h`. For
the accepted URL made of `http://a`, a line feed and `http://b/c`, which begins
with `http://`, the base is `http://b` and the topic `c`, and joining them does
not give back the URL. -/
theorem main_base_not_text_before_last_slash :
    main (flagsOf "http-https://h/t" false) =
      .serving { serverUrl := "https://h", topic := "t", bold := "" } ∧
    ("http-https://h/t" : String) = "http-https://h" ++ "/" ++ "t" ∧
    ("https://h" : String) ≠ "http-https://h" ∧
    HasPrefix "http://a\nhttp://b/c" "http://" = true ∧
    main (flagsOf "http://a\nhttp://b/c" false) =
      .serving { serverUrl := "http://b", topic := "c", bold := "" } ∧
    ("http://b" : String) ++ "/" ++ "c" ≠ "http://a\nhttp://b/c" := by
  refine ⟨by decide, by decide, by decide, by decide, by decide, by decide⟩

end OwncastNtfy
